import Mathlib

/-!
# Flight-delay insurance ledger: shallow embedding and verification

This file embeds the `FlightInsurance` Solidity contract (the variant with the
`notOracle` and deposit-amount checks, debug-event version) as executable Lean
definitions and proves the specified properties of its operations:
`subscribe`, `registerFlight`, `depositFunds`, `setOracle`,
`updateFlightStatus` and the read query `isSubscribed`.

Modeling conventions:
* addresses are natural numbers; `keccak256`-based string comparison is string
  equality (collision-freeness assumption);
* amounts and timestamps are natural numbers (wei / unix seconds);
* a reverting call is an `Except.error`; `execCall` gives the transaction
  semantics, where a reverted call leaves the state unchanged and transfers
  nothing (full rollback);
* `payable(user).transfer(PAYOUT)` succeeds exactly when the contract balance
  (the pool) is at least `PAYOUT`, and otherwise reverts the whole call;
* each successful call additionally reports the list of outgoing transfers
  `(recipient, amount)` it performed.
-/

namespace FlightInsurance

abbrev Address := Nat

/-- `0.1 ether` in wei, the monthly subscription premium. -/
def PREMIUM : Nat := 100000000000000000

/-- `1 ether` in wei, the payout for a delayed flight. -/
def PAYOUT : Nat := 1000000000000000000

/-- `2 hours` in seconds, the delay threshold for payout. -/
def DELAY_THRESHOLD : Nat := 7200

/-- `30 days` in seconds, the subscription duration. -/
def SUBSCRIPTION_DURATION : Nat := 2592000

/-- One insured flight of one subscriber. -/
structure Policy where
  flightID : String
  flightTimestamp : Nat
  hasPaidOut : Bool
deriving DecidableEq

/-- Per-subscriber record: the active flag, the start of the last
subscription period, and the ordered policies. -/
structure Subscription where
  isActive : Bool
  startTime : Nat
  policies : List Policy
deriving DecidableEq

/-- The contract's persistent state. Solidity mappings are total functions
with the default value built in. -/
structure ContractState where
  owner : Address
  oracle : Address
  subscriptions : Address → Subscription
  flightDelays : String → Bool
  allSubscribers : List Address
  allUsersWithFlights : List Address
  poolBalance : Nat

/-- The distinct revert conditions of the contract. -/
inductive ContractError
  | unauthorized
  | wrongPremium
  | alreadySubscribed
  | duplicateFlight
  | invalidAmount
  | insufficientPool
deriving DecidableEq

/-- The default value of the `subscriptions` mapping. -/
def emptySubscription : Subscription := ⟨false, 0, []⟩

/-- State after the constructor runs with `deployer` as `msg.sender`:
`owner = msg.sender`, `oracle` left at the zero address. -/
def initState (deployer : Address) : ContractState :=
  { owner := deployer
    oracle := 0
    subscriptions := fun _ => emptySubscription
    flightDelays := fun _ => false
    allSubscribers := []
    allUsersWithFlights := []
    poolBalance := 0 }

/-- Pointwise update of a mapping. -/
def updateMap {β : Type} (m : Address → β) (k : Address) (v : β) : Address → β :=
  fun a => if a = k then v else m a

/-- The contract's idiom of scanning a list and pushing only when absent. -/
def pushUnique (l : List Address) (a : Address) : List Address :=
  if a ∈ l then l else l ++ [a]

/-- `setOracle(_oracle)`: only the owner may replace the oracle address. -/
def setOracle (caller newOracle : Address) (s : ContractState) :
    Except ContractError ContractState :=
  if caller = s.owner then .ok { s with oracle := newOracle }
  else .error .unauthorized

/-- `depositFunds()`: only the owner, with a strictly positive `msg.value`;
the value accrues to the contract balance. -/
def depositFunds (caller : Address) (value : Nat) (s : ContractState) :
    Except ContractError ContractState :=
  if caller ≠ s.owner then .error .unauthorized
  else if value = 0 then .error .invalidAmount
  else .ok { s with poolBalance := s.poolBalance + value }

/-- `subscribe()`: requires `msg.value == PREMIUM` and the stored `isActive`
flag to be clear; sets the flag, stamps `startTime`, registers the caller in
both bookkeeping lists (deduplicated) and keeps any previously registered
policies. The premium accrues to the contract balance. -/
def subscribe (caller : Address) (value now : Nat) (s : ContractState) :
    Except ContractError ContractState :=
  if value ≠ PREMIUM then .error .wrongPremium
  else if (s.subscriptions caller).isActive then .error .alreadySubscribed
  else
    let sub := s.subscriptions caller
    .ok { s with
      subscriptions := updateMap s.subscriptions caller
        { sub with isActive := true, startTime := now }
      allSubscribers := pushUnique s.allSubscribers caller
      allUsersWithFlights := pushUnique s.allUsersWithFlights caller
      poolBalance := s.poolBalance + value }

/-- Does the policy list already contain this flight id? -/
def hasFlight (ps : List Policy) (fid : String) : Bool :=
  ps.any fun p => p.flightID = fid

/-- `registerFlight(flightID, flightTimestamp)`: the oracle is barred
(`notOracle`), the id must be fresh among the caller's own policies, and a new
policy with `hasPaidOut = false` is appended. -/
def registerFlight (caller : Address) (fid : String) (fts : Nat)
    (s : ContractState) : Except ContractError ContractState :=
  if caller = s.oracle then .error .unauthorized
  else if hasFlight (s.subscriptions caller).policies fid then
    .error .duplicateFlight
  else
    let sub := s.subscriptions caller
    .ok { s with
      subscriptions := updateMap s.subscriptions caller
        { sub with policies := sub.policies ++ [⟨fid, fts, false⟩] }
      allUsersWithFlights := pushUnique s.allUsersWithFlights caller }

/-- Accumulator of the payout scan: the remaining pool and the transfers
performed so far, in order. -/
structure ScanAcc where
  pool : Nat
  payouts : List (Address × Nat)
deriving DecidableEq

/-- The inner loop of `updateFlightStatus` over one subscriber's policies.
A policy that matches the reported flight, is not yet paid and whose delay
threshold has passed is paid exactly when the recomputed `isActive` is set;
paying marks `hasPaidOut` and transfers `PAYOUT`, which reverts the whole
call (`insufficientPool`) when the pool cannot cover it. -/
def scanPolicies (now : Nat) (fid : String) (act : Bool) (user : Address) :
    List Policy → ScanAcc → Except ContractError (List Policy × ScanAcc)
  | [], acc => .ok ([], acc)
  | p :: ps, acc =>
    if p.flightID = fid ∧ p.hasPaidOut = false ∧
        p.flightTimestamp + DELAY_THRESHOLD ≤ now then
      if act then
        if acc.pool < PAYOUT then .error .insufficientPool
        else
          match scanPolicies now fid act user ps
              ⟨acc.pool - PAYOUT, acc.payouts ++ [(user, PAYOUT)]⟩ with
          | .error e => .error e
          | .ok (ps', acc') => .ok ({ p with hasPaidOut := true } :: ps', acc')
      else
        match scanPolicies now fid act user ps acc with
        | .error e => .error e
        | .ok (ps', acc') => .ok (p :: ps', acc')
    else
      match scanPolicies now fid act user ps acc with
      | .error e => .error e
      | .ok (ps', acc') => .ok (p :: ps', acc')

/-- The outer loop of `updateFlightStatus` over `allUsersWithFlights`.
For each user the effective activity `isActive && now < startTime + duration`
is recomputed and written back (lazy expiry), then the policies are scanned. -/
def scanUsers (now : Nat) (fid : String) :
    List Address → (Address → Subscription) → ScanAcc →
    Except ContractError ((Address → Subscription) × ScanAcc)
  | [], subs, acc => .ok (subs, acc)
  | u :: us, subs, acc =>
    let sub := subs u
    let act := sub.isActive && decide (now < sub.startTime + SUBSCRIPTION_DURATION)
    match scanPolicies now fid act u sub.policies acc with
    | .error e => .error e
    | .ok (ps', acc') =>
      scanUsers now fid us (updateMap subs u ⟨act, sub.startTime, ps'⟩) acc'

/-- `updateFlightStatus(flightID, delayed)`: oracle-only; records the status,
and when `delayed` runs the payout scan. On success it returns the new state
together with the list of transfers performed. -/
def updateFlightStatus (caller : Address) (fid : String) (delayed : Bool)
    (now : Nat) (s : ContractState) :
    Except ContractError (ContractState × List (Address × Nat)) :=
  if caller ≠ s.oracle then .error .unauthorized
  else
    let s1 : ContractState :=
      { s with flightDelays := fun f => if f = fid then delayed else s.flightDelays f }
    if delayed then
      match scanUsers now fid s1.allUsersWithFlights s1.subscriptions
          ⟨s1.poolBalance, []⟩ with
      | .error e => .error e
      | .ok (subs', acc) =>
        .ok ({ s1 with subscriptions := subs', poolBalance := acc.pool }, acc.payouts)
    else .ok (s1, [])

/-- `isSubscribed(user)`: the stored flag and the time window together. -/
def isSubscribed (user : Address) (now : Nat) (s : ContractState) : Bool :=
  (s.subscriptions user).isActive &&
    decide (now < (s.subscriptions user).startTime + SUBSCRIPTION_DURATION)

/-- One external call to the contract. -/
inductive Call
  | subscribeC (caller : Address) (value : Nat)
  | registerFlightC (caller : Address) (fid : String) (fts : Nat)
  | updateFlightStatusC (caller : Address) (fid : String) (delayed : Bool)
  | depositFundsC (caller : Address) (value : Nat)
  | setOracleC (caller : Address) (newOracle : Address)

/-- Transaction semantics of one call at time `now`: a reverted call leaves
the state unchanged and performs no transfers. -/
def execCall (now : Nat) (c : Call) (s : ContractState) :
    ContractState × List (Address × Nat) :=
  match c with
  | .subscribeC caller value =>
    match subscribe caller value now s with
    | .ok s' => (s', [])
    | .error _ => (s, [])
  | .registerFlightC caller fid fts =>
    match registerFlight caller fid fts s with
    | .ok s' => (s', [])
    | .error _ => (s, [])
  | .updateFlightStatusC caller fid delayed =>
    match updateFlightStatus caller fid delayed now s with
    | .ok r => r
    | .error _ => (s, [])
  | .depositFundsC caller value =>
    match depositFunds caller value s with
    | .ok s' => (s', [])
    | .error _ => (s, [])
  | .setOracleC caller newOracle =>
    match setOracle caller newOracle s with
    | .ok s' => (s', [])
    | .error _ => (s, [])

/-- A timed sequence of external calls; the transfer logs are concatenated. -/
def execTrace : List (Nat × Call) → ContractState → ContractState × List (Address × Nat)
  | [], s => (s, [])
  | (now, c) :: tr, s =>
    let r := execCall now c s
    let r2 := execTrace tr r.1
    (r2.1, r.2 ++ r2.2)

/-- One `updateFlightStatus` invocation: time, caller, flight id, delayed. -/
abbrev UpdEvent := Nat × Address × String × Bool

/-- A sequence consisting only of `updateFlightStatus` calls. -/
def execUpdates : List UpdEvent → ContractState → ContractState × List (Address × Nat)
  | [], s => (s, [])
  | e :: tr, s =>
    let r := execCall e.1 (.updateFlightStatusC e.2.1 e.2.2.1 e.2.2.2) s
    let r2 := execUpdates tr r.1
    (r2.1, r.2 ++ r2.2)

/-- Did the call succeed? -/
def isOk {α : Type} : Except ContractError α → Bool
  | .ok _ => true
  | .error _ => false

/-- Did the call revert with this particular error? -/
def isErr {α : Type} (e : Except ContractError α) (err : ContractError) : Bool :=
  match e with
  | .error x => decide (x = err)
  | .ok _ => false

/-- Number of transfers sent to `u` in a transfer log. -/
def payoutsTo (u : Address) : List (Address × Nat) → Nat
  | [] => 0
  | e :: l => (if e.1 = u then 1 else 0) + payoutsTo u l

/-- Number of positions at which a policy's paid flag went from clear to set
between two policy lists (compared positionally). -/
def flips : List Policy → List Policy → Nat
  | p :: ps, q :: qs =>
    (if p.hasPaidOut = false ∧ q.hasPaidOut = true then 1 else 0) + flips ps qs
  | _, _ => 0

/-- How a single scan may change one policy: left unchanged, or (when it was
unpaid) paid and marked. -/
def stepPolicy (p q : Policy) : Prop :=
  q = p ∨ (p.hasPaidOut = false ∧ q = { p with hasPaidOut := true })

/-- A funded state with one active subscriber (address 2) holding one unpaid
policy for flight `FL123` scheduled at time 1000. -/
def demoState : ContractState :=
  { owner := 1
    oracle := 9
    subscriptions := fun a => if a = 2 then ⟨true, 500, [⟨"FL123", 1000, false⟩]⟩
      else emptySubscription
    flightDelays := fun _ => false
    allSubscribers := [2]
    allUsersWithFlights := [2]
    poolBalance := PAYOUT * 10 }

/-- `demoState` with an empty pool: a due payout cannot be funded. -/
def brokeState : ContractState :=
  { demoState with poolBalance := 0 }

/-- A state whose subscriber 2 still has the stored `isActive` flag set but
whose subscription window (start 0) has long passed. -/
def expiredState : ContractState :=
  { owner := 1
    oracle := 9
    subscriptions := fun a => if a = 2 then ⟨true, 0, [⟨"FL123", 1000, false⟩]⟩
      else emptySubscription
    flightDelays := fun _ => false
    allSubscribers := [2]
    allUsersWithFlights := [2]
    poolBalance := PAYOUT * 10 }

/-- A state whose subscriber 2 is inactive but retains a policy from an
earlier subscription period. -/
def lapsedState : ContractState :=
  { owner := 1
    oracle := 9
    subscriptions := fun a => if a = 2 then ⟨false, 0, [⟨"FL9", 100, false⟩]⟩
      else emptySubscription
    flightDelays := fun _ => false
    allSubscribers := [2]
    allUsersWithFlights := [2]
    poolBalance := 0 }

/-- Deploy (deployer 1), set oracle to 9, then subscriber 2 subscribes at
time 0: the concrete scenario behind the re-subscription deadlock. -/
def resubState : ContractState :=
  (execCall 0 (.subscribeC 2 PREMIUM)
    ((execCall 0 (.setOracleC 1 9) (initState 1)).1)).1

/-- `resubState` after the oracle reports a delay at the moment the
subscription window has just expired, lazily clearing the flag. -/
def resubStateCleared : ContractState :=
  (execCall SUBSCRIPTION_DURATION (.updateFlightStatusC 9 "FL1" true) resubState).1

/-- The marking pass of the payout scan with unlimited funds: the policies
as the scan would leave them and the number of payouts the scan attempts
(matching, unpaid, past the threshold, and under an effective subscription). -/
def markDue (now : Nat) (fid : String) (act : Bool) :
    List Policy → List Policy × Nat
  | [] => ([], 0)
  | p :: ps =>
    let r := markDue now fid act ps
    if p.flightID = fid ∧ p.hasPaidOut = false ∧
        p.flightTimestamp + DELAY_THRESHOLD ≤ now then
      if act then ({ p with hasPaidOut := true } :: r.1, r.2 + 1)
      else (p :: r.1, r.2)
    else (p :: r.1, r.2)

/-- The user walk of the marking pass: the subscription map as the scan
would leave it and the total number of payouts the scan attempts over all
listed users, visiting them in order with the same lazy-expiry write-back. -/
def markUsers (now : Nat) (fid : String) :
    List Address → (Address → Subscription) → (Address → Subscription) × Nat
  | [], subs => (subs, 0)
  | u :: us, subs =>
    let sub := subs u
    let act := sub.isActive && decide (now < sub.startTime + SUBSCRIPTION_DURATION)
    let r := markDue now fid act sub.policies
    let r2 := markUsers now fid us (updateMap subs u ⟨act, sub.startTime, r.1⟩)
    (r2.1, r.2 + r2.2)

/-- Number of payouts a `updateFlightStatus (fid, true)` call at time `now`
is due to make from state `s`. -/
def duePayoutCount (now : Nat) (fid : String) (s : ContractState) : Nat :=
  (markUsers now fid s.allUsersWithFlights s.subscriptions).2

/-- A state with two active subscribers each holding a due policy for the
same flight, but a pool able to fund only one of the two payouts. -/
def twoDueState : ContractState :=
  { owner := 1
    oracle := 9
    subscriptions := fun a =>
      if a = 2 then ⟨true, 500, [⟨"FL123", 1000, false⟩]⟩
      else if a = 3 then ⟨true, 600, [⟨"FL123", 900, false⟩]⟩
      else emptySubscription
    flightDelays := fun _ => false
    allSubscribers := [2, 3]
    allUsersWithFlights := [2, 3]
    poolBalance := PAYOUT }

theorem stepPolicy_refl (p : Policy) : stepPolicy p p := Or.inl rfl

theorem stepPolicy_paid_eq {p q : Policy} (h : stepPolicy p q)
    (hp : p.hasPaidOut = true) : q = p := by
  rcases h with h | ⟨hf, _⟩
  · exact h
  · rw [hf] at hp; simp at hp

theorem stepPolicy_trans {p q r : Policy} (h1 : stepPolicy p q)
    (h2 : stepPolicy q r) : stepPolicy p r := by
  rcases h1 with h1 | ⟨hpf, h1⟩
  · rw [h1] at h2; exact h2
  · rcases h2 with h2 | ⟨hqf, h2⟩
    · rw [h2]; exact Or.inr ⟨hpf, h1⟩
    · rw [h1] at hqf; simp at hqf

theorem forall₂_stepPolicy_refl (l : List Policy) :
    List.Forall₂ stepPolicy l l := by
  induction l with
  | nil => exact List.Forall₂.nil
  | cons p ps ih => exact List.Forall₂.cons (stepPolicy_refl p) ih

theorem forall₂_stepPolicy_trans {a b c : List Policy}
    (h1 : List.Forall₂ stepPolicy a b) (h2 : List.Forall₂ stepPolicy b c) :
    List.Forall₂ stepPolicy a c := by
  induction h1 generalizing c with
  | nil => cases h2; exact List.Forall₂.nil
  | cons hpq h ih =>
    cases h2 with
    | cons hqr h' => exact List.Forall₂.cons (stepPolicy_trans hpq hqr) (ih h')

theorem flips_self (l : List Policy) : flips l l = 0 := by
  induction l with
  | nil => rfl
  | cons p ps ih =>
    unfold flips
    rw [ih]
    cases hp : p.hasPaidOut <;> simp [hp]

theorem flips_cons (p q : Policy) (ps qs : List Policy) :
    flips (p :: ps) (q :: qs) =
      (if p.hasPaidOut = false ∧ q.hasPaidOut = true then 1 else 0) + flips ps qs := rfl

theorem stepPolicy_contrib {p q r : Policy} (h1 : stepPolicy p q)
    (h2 : stepPolicy q r) :
    (if p.hasPaidOut = false ∧ r.hasPaidOut = true then 1 else 0) =
    (if p.hasPaidOut = false ∧ q.hasPaidOut = true then 1 else 0) +
    (if q.hasPaidOut = false ∧ r.hasPaidOut = true then 1 else 0) := by
  rcases h1 with h1 | ⟨hpf, h1⟩
  · rw [h1]
    cases hp : p.hasPaidOut <;> simp [hp]
  · rcases h2 with h2 | ⟨hqf, _⟩
    · rw [h2, h1, hpf]; simp
    · rw [h1] at hqf; simp at hqf

theorem flips_trans {a b c : List Policy}
    (h1 : List.Forall₂ stepPolicy a b) (h2 : List.Forall₂ stepPolicy b c) :
    flips a c = flips a b + flips b c := by
  induction h1 generalizing c with
  | nil => cases h2; simp [flips]
  | @cons p q ps qs hpq h ih =>
    cases h2 with
    | @cons _ r _ rs hqr h' =>
      have hrec := ih h'
      rw [flips_cons, flips_cons, flips_cons, stepPolicy_contrib hpq hqr]
      omega

theorem payoutsTo_append (u : Address) (l1 l2 : List (Address × Nat)) :
    payoutsTo u (l1 ++ l2) = payoutsTo u l1 + payoutsTo u l2 := by
  induction l1 with
  | nil => simp [payoutsTo]
  | cons e l ih =>
    show (if e.1 = u then 1 else 0) + payoutsTo u (l ++ l2) = _
    rw [ih]
    show _ = (if e.1 = u then 1 else 0) + payoutsTo u l + payoutsTo u l2
    omega

theorem payoutsTo_replicate (u w : Address) (n amt : Nat) :
    payoutsTo u (List.replicate n (w, amt)) = if w = u then n else 0 := by
  induction n with
  | zero => simp [payoutsTo]
  | succ n ih =>
    rw [List.replicate_succ]
    simp only [payoutsTo, ih]
    split <;> omega

theorem scanPolicies_ok_spec {now : Nat} {fid : String} {act : Bool}
    {user : Address} {ps ps' : List Policy} {acc acc' : ScanAcc}
    (h : scanPolicies now fid act user ps acc = .ok (ps', acc')) :
    List.Forall₂ stepPolicy ps ps' ∧
    acc'.pool ≤ acc.pool ∧
    acc'.payouts = acc.payouts ++ List.replicate (flips ps ps') (user, PAYOUT) := by
  induction ps generalizing acc ps' acc' with
  | nil =>
    simp only [scanPolicies, Except.ok.injEq, Prod.mk.injEq] at h
    obtain ⟨h1, h2⟩ := h
    subst h1; subst h2
    exact ⟨List.Forall₂.nil, Nat.le_refl _, by simp [flips]⟩
  | cons p ps ih =>
    simp only [scanPolicies] at h
    by_cases hc : p.flightID = fid ∧ p.hasPaidOut = false ∧
        p.flightTimestamp + DELAY_THRESHOLD ≤ now
    · rw [if_pos hc] at h
      cases act with
      | false =>
        simp only [Bool.false_eq_true, if_false] at h
        cases hrec : scanPolicies now fid false user ps acc with
        | error e => rw [hrec] at h; cases h
        | ok v =>
          obtain ⟨ps2, acc2⟩ := v
          rw [hrec] at h
          simp only [Except.ok.injEq, Prod.mk.injEq] at h
          obtain ⟨h1, h2⟩ := h
          subst h1; subst h2
          obtain ⟨hf, hpool, hpay⟩ := ih hrec
          refine ⟨List.Forall₂.cons (stepPolicy_refl p) hf, hpool, ?_⟩
          unfold flips
          rw [if_neg (by rw [hc.2.1]; simp)]
          simpa using hpay
      | true =>
        simp only [if_true] at h
        by_cases hpool : acc.pool < PAYOUT
        · rw [if_pos hpool] at h; cases h
        · rw [if_neg hpool] at h
          cases hrec : scanPolicies now fid true user ps
              ⟨acc.pool - PAYOUT, acc.payouts ++ [(user, PAYOUT)]⟩ with
          | error e => rw [hrec] at h; cases h
          | ok v =>
            obtain ⟨ps2, acc2⟩ := v
            rw [hrec] at h
            simp only [Except.ok.injEq, Prod.mk.injEq] at h
            obtain ⟨h1, h2⟩ := h
            subst h1; subst h2
            obtain ⟨hf, hp2, hpay⟩ := ih hrec
            refine ⟨List.Forall₂.cons (Or.inr ⟨hc.2.1, rfl⟩) hf, by simp at hp2 ⊢; omega, ?_⟩
            unfold flips
            rw [if_pos (by exact ⟨hc.2.1, rfl⟩)]
            rw [hpay, Nat.add_comm 1 (flips ps ps2), List.replicate_succ]
            simp [List.append_assoc]
    · rw [if_neg hc] at h
      cases hrec : scanPolicies now fid act user ps acc with
      | error e => rw [hrec] at h; cases h
      | ok v =>
        obtain ⟨ps2, acc2⟩ := v
        rw [hrec] at h
        simp only [Except.ok.injEq, Prod.mk.injEq] at h
        obtain ⟨h1, h2⟩ := h
        subst h1; subst h2
        obtain ⟨hf, hpool, hpay⟩ := ih hrec
        refine ⟨List.Forall₂.cons (stepPolicy_refl p) hf, hpool, ?_⟩
        unfold flips
        cases hp : p.hasPaidOut with
        | false => rw [if_neg (by simp [hp])]; simpa using hpay
        | true => rw [if_neg (by simp [hp])]; simpa using hpay

theorem scanPolicies_inactive {now : Nat} {fid : String} {user : Address}
    {ps : List Policy} {acc : ScanAcc} :
    scanPolicies now fid false user ps acc = .ok (ps, acc) := by
  induction ps with
  | nil => rfl
  | cons p ps ih =>
    simp only [scanPolicies]
    split
    · simp [ih]
    · simp [ih]

theorem scanPolicies_broke {now : Nat} {fid : String} {user : Address}
    {ps : List Policy} {acc : ScanAcc} (hpool : acc.pool = 0)
    (hdue : ∃ p ∈ ps, p.flightID = fid ∧ p.hasPaidOut = false ∧
      p.flightTimestamp + DELAY_THRESHOLD ≤ now) :
    scanPolicies now fid true user ps acc = .error .insufficientPool := by
  induction ps generalizing acc with
  | nil => simp at hdue
  | cons p ps ih =>
    simp only [scanPolicies]
    by_cases hc : p.flightID = fid ∧ p.hasPaidOut = false ∧
        p.flightTimestamp + DELAY_THRESHOLD ≤ now
    · rw [if_pos hc, if_true, if_pos (by rw [hpool]; decide)]
    · rw [if_neg hc]
      have hdue' : ∃ p ∈ ps, p.flightID = fid ∧ p.hasPaidOut = false ∧
          p.flightTimestamp + DELAY_THRESHOLD ≤ now := by
        rcases hdue with ⟨q, hq, hprops⟩
        rcases List.mem_cons.mp hq with hq | hq
        · subst hq; exact absurd hprops hc
        · exact ⟨q, hq, hprops⟩
      rw [ih hpool hdue']

theorem updateMap_same {β : Type} (m : Address → β) (k : Address) (v : β) :
    updateMap m k v k = v := by simp [updateMap]

theorem updateMap_ne {β : Type} (m : Address → β) (k a : Address) (v : β)
    (h : a ≠ k) : updateMap m k v a = m a := by simp [updateMap, h]

theorem scanPolicies_pool0 {now : Nat} {fid : String} {act : Bool}
    {user : Address} {ps : List Policy} {acc : ScanAcc} (hpool : acc.pool = 0) :
    scanPolicies now fid act user ps acc = .error .insufficientPool ∨
    scanPolicies now fid act user ps acc = .ok (ps, acc) := by
  induction ps with
  | nil => right; rfl
  | cons p ps ih =>
    simp only [scanPolicies]
    by_cases hc : p.flightID = fid ∧ p.hasPaidOut = false ∧
        p.flightTimestamp + DELAY_THRESHOLD ≤ now
    · rw [if_pos hc]
      cases act with
      | true =>
        rw [if_pos rfl, if_pos (by rw [hpool]; decide)]
        left; rfl
      | false =>
        simp only [Bool.false_eq_true, if_false]
        rcases ih with he | hok
        · rw [he]; left; rfl
        · rw [hok]; right; rfl
    · rw [if_neg hc]
      rcases ih with he | hok
      · rw [he]; left; rfl
      · rw [hok]; right; rfl

theorem scanPolicies_char (now : Nat) (fid : String) (act : Bool)
    (user : Address) (ps : List Policy) (acc : ScanAcc) :
    (PAYOUT * (markDue now fid act ps).2 ≤ acc.pool →
      scanPolicies now fid act user ps acc =
        .ok ((markDue now fid act ps).1,
          ⟨acc.pool - PAYOUT * (markDue now fid act ps).2,
            acc.payouts ++ List.replicate (markDue now fid act ps).2 (user, PAYOUT)⟩)) ∧
    (acc.pool < PAYOUT * (markDue now fid act ps).2 →
      scanPolicies now fid act user ps acc = .error .insufficientPool) := by
  induction ps generalizing acc with
  | nil =>
    constructor
    · intro h
      simp [scanPolicies, markDue]
    · intro h
      simp [markDue] at h
  | cons p ps ih =>
    by_cases hc : p.flightID = fid ∧ p.hasPaidOut = false ∧
        p.flightTimestamp + DELAY_THRESHOLD ≤ now
    · cases act with
      | true =>
        have hm : markDue now fid true (p :: ps) =
            ({ p with hasPaidOut := true } :: (markDue now fid true ps).1,
              (markDue now fid true ps).2 + 1) := by
          simp only [markDue]
          rw [if_pos hc, if_pos trivial]
        rw [hm]
        constructor
        · intro h
          rw [Nat.mul_succ] at h
          have hpool : ¬(acc.pool < PAYOUT) := by omega
          have hle : PAYOUT * (markDue now fid true ps).2 ≤ acc.pool - PAYOUT := by
            omega
          have hrec := (ih ⟨acc.pool - PAYOUT, acc.payouts ++ [(user, PAYOUT)]⟩).1 hle
          simp only [scanPolicies]
          rw [if_pos hc, if_pos trivial, if_neg hpool, hrec]
          simp only [Except.ok.injEq, Prod.mk.injEq, ScanAcc.mk.injEq]
          refine ⟨trivial, ?_, ?_⟩
          · have e1 : PAYOUT * ((markDue now fid true ps).2 + 1) =
                PAYOUT * (markDue now fid true ps).2 + PAYOUT := Nat.mul_succ _ _
            have e2 : PAYOUT * (1 + (markDue now fid true ps).2) =
                PAYOUT + PAYOUT * (markDue now fid true ps).2 := by
              rw [Nat.mul_add, Nat.mul_one]
            omega
          · have e3 : ∀ n : Nat, List.replicate (1 + n) (user, PAYOUT) =
                (user, PAYOUT) :: List.replicate n (user, PAYOUT) := by
              intro n
              rw [Nat.add_comm, List.replicate_succ]
            simp [e3, List.replicate_succ, List.append_assoc]
        · intro h
          simp only [scanPolicies]
          rw [if_pos hc, if_pos trivial]
          by_cases hpool : acc.pool < PAYOUT
          · rw [if_pos hpool]
          · rw [if_neg hpool]
            have hlt : acc.pool - PAYOUT < PAYOUT * (markDue now fid true ps).2 := by
              rw [Nat.mul_succ] at h
              omega
            have hrec := (ih ⟨acc.pool - PAYOUT, acc.payouts ++ [(user, PAYOUT)]⟩).2 hlt
            rw [hrec]
      | false =>
        have hm : markDue now fid false (p :: ps) =
            (p :: (markDue now fid false ps).1, (markDue now fid false ps).2) := by
          simp only [markDue]
          rw [if_pos hc, if_neg (by simp)]
        rw [hm]
        constructor
        · intro h
          have hrec := (ih acc).1 h
          simp only [scanPolicies]
          rw [if_pos hc, if_neg (by simp), hrec]
        · intro h
          have hrec := (ih acc).2 h
          simp only [scanPolicies]
          rw [if_pos hc, if_neg (by simp), hrec]
    · have hm : markDue now fid act (p :: ps) =
          (p :: (markDue now fid act ps).1, (markDue now fid act ps).2) := by
        simp only [markDue]
        rw [if_neg hc]
      rw [hm]
      constructor
      · intro h
        have hrec := (ih acc).1 h
        simp only [scanPolicies]
        rw [if_neg hc, hrec]
      · intro h
        have hrec := (ih acc).2 h
        simp only [scanPolicies]
        rw [if_neg hc, hrec]

theorem scanUsers_char (now : Nat) (fid : String) (users : List Address)
    (subs : Address → Subscription) (acc : ScanAcc) :
    (PAYOUT * (markUsers now fid users subs).2 ≤ acc.pool →
      ∃ log, scanUsers now fid users subs acc =
        .ok ((markUsers now fid users subs).1,
          ⟨acc.pool - PAYOUT * (markUsers now fid users subs).2, log⟩)) ∧
    (acc.pool < PAYOUT * (markUsers now fid users subs).2 →
      scanUsers now fid users subs acc = .error .insufficientPool) := by
  induction users generalizing subs acc with
  | nil =>
    constructor
    · intro h
      refine ⟨acc.payouts, ?_⟩
      simp [scanUsers, markUsers]
    · intro h
      simp [markUsers] at h
  | cons u us ih =>
    obtain ⟨m, hm⟩ : ∃ m, markDue now fid ((subs u).isActive &&
        decide (now < (subs u).startTime + SUBSCRIPTION_DURATION)) (subs u).policies = m :=
      ⟨_, rfl⟩
    obtain ⟨s1, hs1⟩ : ∃ s1, updateMap subs u ⟨(subs u).isActive &&
        decide (now < (subs u).startTime + SUBSCRIPTION_DURATION),
        (subs u).startTime, m.1⟩ = s1 := ⟨_, rfl⟩
    obtain ⟨m2, hm2⟩ : ∃ m2, markUsers now fid us s1 = m2 := ⟨_, rfl⟩
    have hcons : markUsers now fid (u :: us) subs = (m2.1, m.2 + m2.2) := by
      simp only [markUsers, hm, hs1, hm2]
    have hchar := scanPolicies_char now fid ((subs u).isActive &&
        decide (now < (subs u).startTime + SUBSCRIPTION_DURATION)) u (subs u).policies acc
    rw [hm] at hchar
    have hbody : scanUsers now fid (u :: us) subs acc =
        match scanPolicies now fid ((subs u).isActive &&
            decide (now < (subs u).startTime + SUBSCRIPTION_DURATION)) u
            (subs u).policies acc with
        | .error e => .error e
        | .ok (ps', acc') =>
          scanUsers now fid us (updateMap subs u ⟨(subs u).isActive &&
            decide (now < (subs u).startTime + SUBSCRIPTION_DURATION),
            (subs u).startTime, ps'⟩) acc' := rfl
    rw [hcons]
    simp only []
    have hmulA : PAYOUT * (m.2 + m2.2) = PAYOUT * m.2 + PAYOUT * m2.2 :=
      Nat.mul_add _ _ _
    constructor
    · intro h
      have hle1 : PAYOUT * m.2 ≤ acc.pool := by omega
      have hrec1 := hchar.1 hle1
      have hih := ih s1 ⟨acc.pool - PAYOUT * m.2,
        acc.payouts ++ List.replicate m.2 (u, PAYOUT)⟩
      rw [hm2] at hih
      simp only [] at hih
      have hle2 : PAYOUT * m2.2 ≤ acc.pool - PAYOUT * m.2 := by omega
      obtain ⟨log, hlog⟩ := hih.1 hle2
      refine ⟨log, ?_⟩
      rw [hbody]
      simp only [hrec1]
      rw [hs1, hlog]
      have hpe : acc.pool - PAYOUT * m.2 - PAYOUT * m2.2 =
          acc.pool - PAYOUT * (m.2 + m2.2) := by omega
      rw [hpe]
    · intro h
      by_cases h1 : acc.pool < PAYOUT * m.2
      · have hrec1 := hchar.2 h1
        rw [hbody]
        simp only [hrec1]
      · have hle1 : PAYOUT * m.2 ≤ acc.pool := by omega
        have hrec1 := hchar.1 hle1
        rw [hbody]
        simp only [hrec1]
        rw [hs1]
        have hih := ih s1 ⟨acc.pool - PAYOUT * m.2,
          acc.payouts ++ List.replicate m.2 (u, PAYOUT)⟩
        rw [hm2] at hih
        simp only [] at hih
        have hlt2 : acc.pool - PAYOUT * m.2 < PAYOUT * m2.2 := by omega
        rw [hih.2 hlt2]


theorem scanUsers_ok_spec {now : Nat} {fid : String} {users : List Address}
    {subs subs' : Address → Subscription} {acc acc' : ScanAcc}
    (h : scanUsers now fid users subs acc = .ok (subs', acc')) (v : Address) :
    List.Forall₂ stepPolicy (subs v).policies ((subs' v).policies) ∧
    payoutsTo v acc'.payouts = payoutsTo v acc.payouts +
      flips (subs v).policies ((subs' v).policies) := by
  induction users generalizing subs acc with
  | nil =>
    simp only [scanUsers, Except.ok.injEq, Prod.mk.injEq] at h
    obtain ⟨h1, h2⟩ := h
    subst h1; subst h2
    exact ⟨forall₂_stepPolicy_refl _, by simp [flips_self]⟩
  | cons u us ih =>
    simp only [scanUsers] at h
    cases hrec : scanPolicies now fid
        ((subs u).isActive && decide (now < (subs u).startTime + SUBSCRIPTION_DURATION))
        u (subs u).policies acc with
    | error e => rw [hrec] at h; cases h
    | ok w =>
      obtain ⟨ps', acc1⟩ := w
      rw [hrec] at h
      obtain ⟨hfp, hple, hpay1⟩ := scanPolicies_ok_spec hrec
      by_cases hv : v = u
      · subst hv
        have hmid := ih h
        simp only [updateMap_same] at hmid
        obtain ⟨hf2, hpay2⟩ := hmid
        refine ⟨forall₂_stepPolicy_trans hfp hf2, ?_⟩
        have hflip := flips_trans hfp hf2
        have h1 : payoutsTo v acc1.payouts =
            payoutsTo v acc.payouts + flips (subs v).policies ps' := by
          rw [hpay1, payoutsTo_append, payoutsTo_replicate]
          simp
        simp only [hf2, hpay2, h1] at hflip ⊢
        omega
      · have hne : v ≠ u := hv
        have hmid := ih h
        rw [updateMap_ne _ _ _ _ hne] at hmid
        obtain ⟨hf2, hpay2⟩ := hmid
        refine ⟨hf2, ?_⟩
        have h1 : payoutsTo v acc1.payouts = payoutsTo v acc.payouts := by
          have hvu : ¬(u = v) := fun hc => hne hc.symm
          rw [hpay1, payoutsTo_append, payoutsTo_replicate, if_neg hvu]
          omega
        rw [hpay2, h1]

theorem scanUsers_inactive_stays {now : Nat} {fid : String} {users : List Address}
    {subs subs' : Address → Subscription} {acc acc' : ScanAcc} {u : Address}
    (hin : (subs u).isActive = false)
    (h : scanUsers now fid users subs acc = .ok (subs', acc')) :
    (subs' u).isActive = false := by
  induction users generalizing subs acc with
  | nil =>
    simp only [scanUsers, Except.ok.injEq, Prod.mk.injEq] at h
    rw [← h.1]; exact hin
  | cons w us ih =>
    simp only [scanUsers] at h
    cases hrec : scanPolicies now fid
        ((subs w).isActive && decide (now < (subs w).startTime + SUBSCRIPTION_DURATION))
        w (subs w).policies acc with
    | error e => rw [hrec] at h; cases h
    | ok x =>
      obtain ⟨ps', acc1⟩ := x
      rw [hrec] at h
      by_cases hw : u = w
      · subst hw
        refine ih ?_ h
        rw [updateMap_same]
        simp [hin]
      · refine ih ?_ h
        rw [updateMap_ne _ _ _ _ hw]
        exact hin

theorem scanUsers_startTime_eq {now : Nat} {fid : String} {users : List Address}
    {subs subs' : Address → Subscription} {acc acc' : ScanAcc}
    (h : scanUsers now fid users subs acc = .ok (subs', acc')) (u : Address) :
    (subs' u).startTime = (subs u).startTime := by
  induction users generalizing subs acc with
  | nil =>
    simp only [scanUsers, Except.ok.injEq, Prod.mk.injEq] at h
    rw [← h.1]
  | cons w us ih =>
    simp only [scanUsers] at h
    cases hrec : scanPolicies now fid
        ((subs w).isActive && decide (now < (subs w).startTime + SUBSCRIPTION_DURATION))
        w (subs w).policies acc with
    | error e => rw [hrec] at h; cases h
    | ok x =>
      obtain ⟨ps', acc1⟩ := x
      rw [hrec] at h
      have := ih h
      by_cases hw : u = w
      · subst hw
        rw [this, updateMap_same]
      · rw [this, updateMap_ne _ _ _ _ hw]

theorem scanUsers_expired_clears {now : Nat} {fid : String} {users : List Address}
    {subs subs' : Address → Subscription} {acc acc' : ScanAcc} {u : Address}
    (hexp : (subs u).startTime + SUBSCRIPTION_DURATION ≤ now)
    (hmem : u ∈ users)
    (h : scanUsers now fid users subs acc = .ok (subs', acc')) :
    (subs' u).isActive = false := by
  induction users generalizing subs acc with
  | nil => simp at hmem
  | cons w us ih =>
    simp only [scanUsers] at h
    cases hrec : scanPolicies now fid
        ((subs w).isActive && decide (now < (subs w).startTime + SUBSCRIPTION_DURATION))
        w (subs w).policies acc with
    | error e => rw [hrec] at h; cases h
    | ok x =>
      obtain ⟨ps', acc1⟩ := x
      rw [hrec] at h
      by_cases hw : u = w
      · subst hw
        refine scanUsers_inactive_stays ?_ h
        rw [updateMap_same]
        have : decide (now < (subs u).startTime + SUBSCRIPTION_DURATION) = false := by
          simp; omega
        simp [this]
      · rcases List.mem_cons.mp hmem with hm | hm
        · exact absurd hm hw
        · refine ih ?_ hm h
          rw [updateMap_ne _ _ _ _ hw]
          exact hexp

theorem scanUsers_broke {now : Nat} {fid : String} {users : List Address}
    {subs : Address → Subscription} {acc : ScanAcc}
    (hpool : acc.pool = 0)
    (hdue : ∃ u ∈ users,
      ((subs u).isActive = true ∧ now < (subs u).startTime + SUBSCRIPTION_DURATION) ∧
      ∃ p ∈ (subs u).policies, p.flightID = fid ∧ p.hasPaidOut = false ∧
        p.flightTimestamp + DELAY_THRESHOLD ≤ now) :
    scanUsers now fid users subs acc = .error .insufficientPool := by
  induction users generalizing subs acc with
  | nil => simp at hdue
  | cons w us ih =>
    simp only [scanUsers]
    by_cases hw : ((subs w).isActive = true ∧
        now < (subs w).startTime + SUBSCRIPTION_DURATION) ∧
        ∃ p ∈ (subs w).policies, p.flightID = fid ∧ p.hasPaidOut = false ∧
          p.flightTimestamp + DELAY_THRESHOLD ≤ now
    · have hact : ((subs w).isActive &&
          decide (now < (subs w).startTime + SUBSCRIPTION_DURATION)) = true := by
        simp [hw.1.1, hw.1.2]
      rw [hact, scanPolicies_broke hpool hw.2]
    · rcases @scanPolicies_pool0 now fid
        ((subs w).isActive && decide (now < (subs w).startTime + SUBSCRIPTION_DURATION))
        w (subs w).policies acc hpool with he | hok
      · rw [he]
      · rw [hok]
        rcases hdue with ⟨u, hu, hprops⟩
        rcases List.mem_cons.mp hu with hm | hm
        · subst hm; exact absurd hprops hw
        · refine ih hpool ⟨u, hm, ?_⟩
          have hne : u ≠ w := by
            intro hc; subst hc; exact hw hprops
          rw [updateMap_ne _ _ _ _ hne]
          exact hprops

theorem execUpdate_spec (caller : Address) (fid : String) (delayed : Bool)
    (now : Nat) (s : ContractState) (v : Address) :
    List.Forall₂ stepPolicy ((s.subscriptions v).policies)
      (((execCall now (.updateFlightStatusC caller fid delayed) s).1.subscriptions v).policies) ∧
    payoutsTo v (execCall now (.updateFlightStatusC caller fid delayed) s).2 =
      flips ((s.subscriptions v).policies)
        (((execCall now (.updateFlightStatusC caller fid delayed) s).1.subscriptions v).policies) := by
  simp only [execCall]
  cases hres : updateFlightStatus caller fid delayed now s with
  | error e =>
    refine ⟨forall₂_stepPolicy_refl _, ?_⟩
    simp [flips_self, payoutsTo]
  | ok r =>
    obtain ⟨s2, log⟩ := r
    simp only [updateFlightStatus] at hres
    by_cases hc : caller ≠ s.oracle
    · rw [if_pos hc] at hres; cases hres
    · rw [if_neg hc] at hres
      cases delayed with
      | false =>
        simp only [Bool.false_eq_true, if_false, Except.ok.injEq, Prod.mk.injEq] at hres
        obtain ⟨h1, h2⟩ := hres
        subst h1; subst h2
        refine ⟨forall₂_stepPolicy_refl _, ?_⟩
        simp [flips_self, payoutsTo]
      | true =>
        simp only [if_true] at hres
        cases hscan : scanUsers now fid s.allUsersWithFlights s.subscriptions
            ⟨s.poolBalance, []⟩ with
        | error e => rw [hscan] at hres; cases hres
        | ok w =>
          obtain ⟨subs', acc⟩ := w
          rw [hscan] at hres
          simp only [Except.ok.injEq, Prod.mk.injEq] at hres
          obtain ⟨h1, h2⟩ := hres
          subst h1; subst h2
          have hspec := scanUsers_ok_spec hscan v
          simp only [payoutsTo] at hspec
          simpa using hspec

theorem execUpdates_spec (tr : List UpdEvent) (s : ContractState) (v : Address) :
    List.Forall₂ stepPolicy ((s.subscriptions v).policies)
      (((execUpdates tr s).1.subscriptions v).policies) ∧
    payoutsTo v (execUpdates tr s).2 =
      flips ((s.subscriptions v).policies)
        (((execUpdates tr s).1.subscriptions v).policies) := by
  induction tr generalizing s with
  | nil =>
    exact ⟨forall₂_stepPolicy_refl _, by simp [execUpdates, flips_self, payoutsTo]⟩
  | cons e tr ih =>
    obtain ⟨he1, he2⟩ := execUpdate_spec e.2.1 e.2.2.1 e.2.2.2 e.1 s v
    obtain ⟨hi1, hi2⟩ :=
      ih ((execCall e.1 (.updateFlightStatusC e.2.1 e.2.2.1 e.2.2.2) s).1)
    simp only [execUpdates]
    refine ⟨forall₂_stepPolicy_trans he1 hi1, ?_⟩
    rw [payoutsTo_append, he2, hi2]
    exact (flips_trans he1 hi1).symm

/-- C1: across any sequence of `updateFlightStatus` calls, for every
subscriber the policy list keeps its length, a policy whose `hasPaidOut` flag
is already set is never modified again, and the total number of `PAYOUT`
transfers the subscriber receives equals the number of policies whose flag
went from clear to set — so each policy pays out at most once, and a
re-reported delay never pays the same policy a second time. -/
theorem paid_out_at_most_once (s : ContractState) (tr : List UpdEvent) (v : Address) :
    ((execUpdates tr s).1.subscriptions v).policies.length =
      (s.subscriptions v).policies.length ∧
    (∀ i (h2 : i < (s.subscriptions v).policies.length)
        (h1 : i < ((execUpdates tr s).1.subscriptions v).policies.length),
      ((s.subscriptions v).policies.get ⟨i, h2⟩).hasPaidOut = true →
        ((execUpdates tr s).1.subscriptions v).policies.get ⟨i, h1⟩ =
          (s.subscriptions v).policies.get ⟨i, h2⟩) ∧
    payoutsTo v (execUpdates tr s).2 =
      flips ((s.subscriptions v).policies)
        (((execUpdates tr s).1.subscriptions v).policies) := by
  obtain ⟨h1, h2⟩ := execUpdates_spec tr s v
  exact ⟨h1.length_eq.symm,
    fun _ hi2 hi1 hp => stepPolicy_paid_eq (h1.get hi2 hi1) hp, h2⟩

/-- C2: whenever the pool balance cannot cover the payouts due for a
delayed-status report (in particular on a zero balance, a balance below one
`PAYOUT`, or a balance funding only some of several due payouts), the whole
`updateFlightStatus (fid, true)` call reverts with `insufficientPool` and the
transaction leaves the state exactly as it was: no flag, no policy and no
flight-status record is changed and nothing is transferred. Conversely a
pool covering all due payouts makes the call succeed. -/
theorem insufficient_pool_aborts_update (s : ContractState) (fid : String)
    (now : Nat) :
    (s.poolBalance < PAYOUT * duePayoutCount now fid s →
      updateFlightStatus s.oracle fid true now s = .error .insufficientPool ∧
      execCall now (.updateFlightStatusC s.oracle fid true) s = (s, [])) ∧
    (PAYOUT * duePayoutCount now fid s ≤ s.poolBalance →
      isOk (updateFlightStatus s.oracle fid true now s) = true) := by
  constructor
  · intro hshort
    have herr : updateFlightStatus s.oracle fid true now s =
        .error .insufficientPool := by
      simp only [updateFlightStatus]
      rw [if_pos trivial,
        (scanUsers_char now fid s.allUsersWithFlights s.subscriptions
          ⟨s.poolBalance, []⟩).2 hshort,
        if_neg (fun hx => hx rfl)]
    refine ⟨herr, ?_⟩
    simp only [execCall]
    rw [herr]
  · intro henough
    obtain ⟨log, hok⟩ := (scanUsers_char now fid s.allUsersWithFlights
      s.subscriptions ⟨s.poolBalance, []⟩).1 henough
    simp only [updateFlightStatus]
    rw [if_pos trivial, hok, if_neg (fun hx => hx rfl)]
    rfl

/-- The payout scan never touches the policies of a user whose recomputed
activity is false, and never transfers anything to them. -/
theorem scanUsers_lapsed {now : Nat} {fid : String} {users : List Address}
    {subs subs' : Address → Subscription} {acc acc' : ScanAcc} {u : Address}
    (hin : ((subs u).isActive &&
      decide (now < (subs u).startTime + SUBSCRIPTION_DURATION)) = false)
    (h : scanUsers now fid users subs acc = .ok (subs', acc')) :
    (subs' u).policies = (subs u).policies ∧
    payoutsTo u acc'.payouts = payoutsTo u acc.payouts := by
  induction users generalizing subs acc with
  | nil =>
    simp only [scanUsers, Except.ok.injEq, Prod.mk.injEq] at h
    rw [← h.1, ← h.2]
    exact ⟨rfl, rfl⟩
  | cons w us ih =>
    simp only [scanUsers] at h
    cases hrec : scanPolicies now fid
        ((subs w).isActive && decide (now < (subs w).startTime + SUBSCRIPTION_DURATION))
        w (subs w).policies acc with
    | error e => rw [hrec] at h; cases h
    | ok x =>
      obtain ⟨ps', acc1⟩ := x
      rw [hrec] at h
      by_cases hw : u = w
      · subst hw
        rw [hin] at hrec
        rw [scanPolicies_inactive] at hrec
        have hps : ps' = (subs u).policies ∧ acc1 = acc := by
          have := hrec
          simp only [Except.ok.injEq, Prod.mk.injEq] at this
          exact ⟨this.1.symm, this.2.symm⟩
        obtain ⟨hps1, hps2⟩ := hps
        subst hps1; subst hps2
        have hin' : (((updateMap subs u
            ⟨(subs u).isActive && decide (now < (subs u).startTime + SUBSCRIPTION_DURATION),
              (subs u).startTime, (subs u).policies⟩) u).isActive &&
            decide (now < ((updateMap subs u
            ⟨(subs u).isActive && decide (now < (subs u).startTime + SUBSCRIPTION_DURATION),
              (subs u).startTime, (subs u).policies⟩) u).startTime +
              SUBSCRIPTION_DURATION)) = false := by
          rw [updateMap_same]
          simp only [hin]
          simp
        have hres := ih hin' h
        rw [updateMap_same] at hres
        exact hres
      · have hres := ih (by rw [updateMap_ne _ _ _ _ hw]; exact hin) h
        rw [updateMap_ne _ _ _ _ hw] at hres
        obtain ⟨hp1, hp2⟩ := hres
        refine ⟨hp1, ?_⟩
        obtain ⟨_, _, hpay1⟩ := scanPolicies_ok_spec hrec
        rw [hp2, hpay1, payoutsTo_append, payoutsTo_replicate,
          if_neg (fun hc => hw hc.symm)]
        omega

/-- C3: a subscriber who is inactive or expired at the moment the oracle
reports a flight status receives no transfer from that call and none of
their policies is marked; and no subsequent `subscribe` call (re-subscribing
afterward) ever transfers anything, so the missed report is never credited
retroactively. -/
theorem lapsed_subscriber_never_paid (s : ContractState) (caller u : Address)
    (fid : String) (delayed : Bool) (now : Nat)
    (h : ¬((s.subscriptions u).isActive = true ∧
      now < (s.subscriptions u).startTime + SUBSCRIPTION_DURATION)) :
    payoutsTo u (execCall now (.updateFlightStatusC caller fid delayed) s).2 = 0 ∧
    ((execCall now (.updateFlightStatusC caller fid delayed) s).1.subscriptions u).policies =
      (s.subscriptions u).policies ∧
    (∀ (later value : Nat),
      (execCall later (.subscribeC u value)
        ((execCall now (.updateFlightStatusC caller fid delayed) s).1)).2 = []) := by
  have hsub : ∀ (later value : Nat) (st : ContractState),
      (execCall later (.subscribeC u value) st).2 = [] := by
    intro later value st
    simp only [execCall]
    cases subscribe u value later st <;> rfl
  have hin : ((s.subscriptions u).isActive &&
      decide (now < (s.subscriptions u).startTime + SUBSCRIPTION_DURATION)) = false := by
    cases ha : (s.subscriptions u).isActive with
    | false => simp
    | true =>
      simp only [ha, true_and] at h
      simp [h]
  simp only [execCall]
  cases hres : updateFlightStatus caller fid delayed now s with
  | error e => exact ⟨rfl, rfl, fun later value => hsub later value s⟩
  | ok r =>
    obtain ⟨s2, log⟩ := r
    refine ?_
    simp only [updateFlightStatus] at hres
    by_cases hc : caller ≠ s.oracle
    · rw [if_pos hc] at hres; cases hres
    · rw [if_neg hc] at hres
      cases delayed with
      | false =>
        simp only [Bool.false_eq_true, if_false, Except.ok.injEq, Prod.mk.injEq] at hres
        obtain ⟨h1, h2⟩ := hres
        subst h1; subst h2
        exact ⟨rfl, rfl, fun later value => hsub later value _⟩
      | true =>
        simp only [if_true] at hres
        cases hscan : scanUsers now fid s.allUsersWithFlights s.subscriptions
            ⟨s.poolBalance, []⟩ with
        | error e => rw [hscan] at hres; cases hres
        | ok w =>
          obtain ⟨subs', acc⟩ := w
          rw [hscan] at hres
          simp only [Except.ok.injEq, Prod.mk.injEq] at hres
          obtain ⟨h1, h2⟩ := hres
          subst h1; subst h2
          obtain ⟨hp1, hp2⟩ := scanUsers_lapsed hin hscan
          refine ⟨?_, hp1, fun later value => hsub later value _⟩
          rw [hp2]
          rfl

/-- C4: a flight id that already occurs among the caller's own policies is
rejected with `duplicateFlight`; a fresh id always succeeds (regardless of
what other subscribers registered), appends the new unpaid policy, leaves
every other subscriber untouched, and makes an immediate second registration
of the same id by the same caller fail. -/
theorem duplicate_flight_rejected (s : ContractState) (caller : Address)
    (fid : String) (fts fts' : Nat) (hno : caller ≠ s.oracle) :
    (hasFlight (s.subscriptions caller).policies fid = true →
      registerFlight caller fid fts s = .error .duplicateFlight) ∧
    (hasFlight (s.subscriptions caller).policies fid = false →
      ∃ s', registerFlight caller fid fts s = .ok s' ∧
        (s'.subscriptions caller).policies =
          (s.subscriptions caller).policies ++ [⟨fid, fts, false⟩] ∧
        (∀ v, v ≠ caller → s'.subscriptions v = s.subscriptions v) ∧
        registerFlight caller fid fts' s' = .error .duplicateFlight) := by
  constructor
  · intro hdup
    simp only [registerFlight]
    rw [if_neg hno, if_pos hdup]
  · intro hfresh
    have hok : registerFlight caller fid fts s = .ok { s with
        subscriptions := updateMap s.subscriptions caller
          { s.subscriptions caller with
            policies := (s.subscriptions caller).policies ++ [⟨fid, fts, false⟩] }
        allUsersWithFlights := pushUnique s.allUsersWithFlights caller } := by
      simp only [registerFlight]
      rw [if_neg hno, if_neg (by rw [hfresh]; exact Bool.false_ne_true)]
    refine ⟨_, hok, ?_, ?_, ?_⟩
    · simp [updateMap_same]
    · intro v hv
      simp [updateMap_ne _ _ _ _ hv]
    · simp only [registerFlight]
      rw [if_neg hno, if_pos ?_]
      simp [updateMap_same, hasFlight]

/-- C5: a `subscribe` whose payment differs from `PREMIUM` reverts with
`wrongPremium` and the transaction leaves the entire state unchanged; with
the exact premium but a still-set `isActive` flag it reverts with
`alreadySubscribed`. -/
theorem subscribe_preconditions (s : ContractState) (caller : Address)
    (value now : Nat) :
    (value ≠ PREMIUM →
      subscribe caller value now s = .error .wrongPremium ∧
      execCall now (.subscribeC caller value) s = (s, [])) ∧
    (value = PREMIUM → (s.subscriptions caller).isActive = true →
      subscribe caller value now s = .error .alreadySubscribed) := by
  constructor
  · intro hv
    have h1 : subscribe caller value now s = .error .wrongPremium := by
      simp only [subscribe]
      rw [if_pos hv]
    refine ⟨h1, ?_⟩
    simp only [execCall]
    rw [h1]
  · intro hv hact
    simp only [subscribe]
    rw [if_neg (fun hne => hne hv), if_pos hact]

/-- C7: the oracle can never register a flight: `registerFlight` called by
the oracle address always reverts (`notOracle`), appending nothing to any
subscription and leaving the state unchanged. -/
theorem oracle_cannot_register_flight (s : ContractState) (fid : String)
    (fts now : Nat) :
    registerFlight s.oracle fid fts s = .error .unauthorized ∧
    execCall now (.registerFlightC s.oracle fid fts) s = (s, []) := by
  have h1 : registerFlight s.oracle fid fts s = .error .unauthorized := by
    simp only [registerFlight]
    rw [if_pos trivial]
  refine ⟨h1, ?_⟩
  simp only [execCall]
  rw [h1]

/-- C8: `depositFunds` with a zero amount reverts with `invalidAmount`; with
a positive amount it succeeds and the entire effect is to add the amount to
the pool balance, everything else unchanged. -/
theorem depositFunds_requires_positive (s : ContractState) (value : Nat) :
    depositFunds s.owner 0 s = .error .invalidAmount ∧
    (0 < value → depositFunds s.owner value s =
      .ok { s with poolBalance := s.poolBalance + value }) := by
  constructor
  · simp only [depositFunds]
    rw [if_pos trivial, if_neg (fun hx => hx rfl)]
  · intro hv
    have hvz : ¬(value = 0) := by omega
    simp only [depositFunds]
    rw [if_neg (fun hx => hx rfl), if_neg hvz]

/-- C9: a successful `subscribe(PREMIUM)` sets the caller's flag, stamps
`startTime := now`, adds the premium to the pool, keeps the caller's
previously registered policies verbatim and leaves every other subscriber's
record unchanged. -/
theorem subscribe_success_retains_policies (s : ContractState)
    (caller : Address) (now : Nat)
    (h : (s.subscriptions caller).isActive = false) :
    isOk (subscribe caller PREMIUM now s) = true ∧
    ((execCall now (.subscribeC caller PREMIUM) s).1.subscriptions caller).isActive = true ∧
    ((execCall now (.subscribeC caller PREMIUM) s).1.subscriptions caller).startTime = now ∧
    ((execCall now (.subscribeC caller PREMIUM) s).1.subscriptions caller).policies =
      (s.subscriptions caller).policies ∧
    (execCall now (.subscribeC caller PREMIUM) s).1.poolBalance =
      s.poolBalance + PREMIUM ∧
    (∀ v, v ≠ caller →
      (execCall now (.subscribeC caller PREMIUM) s).1.subscriptions v =
        s.subscriptions v) := by
  have hok : subscribe caller PREMIUM now s = .ok { s with
      subscriptions := updateMap s.subscriptions caller
        { s.subscriptions caller with isActive := true, startTime := now }
      allSubscribers := pushUnique s.allSubscribers caller
      allUsersWithFlights := pushUnique s.allUsersWithFlights caller
      poolBalance := s.poolBalance + PREMIUM } := by
    simp only [subscribe]
    rw [if_neg (fun hx => hx rfl), if_neg (by rw [h]; exact Bool.false_ne_true)]
  refine ⟨by rw [hok]; rfl, ?_, ?_, ?_, ?_, ?_⟩
  · simp only [execCall]; rw [hok]; simp [updateMap_same]
  · simp only [execCall]; rw [hok]; simp [updateMap_same]
  · simp only [execCall]; rw [hok]; simp [updateMap_same]
  · simp only [execCall]; rw [hok]
  · intro v hv
    simp only [execCall]; rw [hok]; simp [updateMap_ne _ _ _ _ hv]

theorem subscribe_ok_frame {caller : Address} {value now : Nat}
    {s s' : ContractState} (h : subscribe caller value now s = .ok s')
    (v : Address) (hv : v ≠ caller) :
    s'.subscriptions v = s.subscriptions v := by
  simp only [subscribe] at h
  by_cases h1 : value ≠ PREMIUM
  · rw [if_pos h1] at h; cases h
  · rw [if_neg h1] at h
    by_cases h2 : (s.subscriptions caller).isActive = true
    · rw [if_pos h2] at h; cases h
    · rw [if_neg h2] at h
      simp only [Except.ok.injEq] at h
      rw [← h]
      simp [updateMap_ne _ _ _ _ hv]

theorem registerFlight_ok_flags {caller : Address} {fid : String} {fts : Nat}
    {s s' : ContractState} (h : registerFlight caller fid fts s = .ok s')
    (v : Address) :
    (s'.subscriptions v).isActive = (s.subscriptions v).isActive ∧
    (s'.subscriptions v).startTime = (s.subscriptions v).startTime := by
  simp only [registerFlight] at h
  by_cases h1 : caller = s.oracle
  · rw [if_pos h1] at h; cases h
  · rw [if_neg h1] at h
    by_cases h2 : hasFlight (s.subscriptions caller).policies fid = true
    · rw [if_pos h2] at h; cases h
    · rw [if_neg h2] at h
      simp only [Except.ok.injEq] at h
      rw [← h]
      by_cases hv : v = caller
      · subst hv; simp [updateMap_same]
      · simp [updateMap_ne _ _ _ _ hv]

theorem updateFlightStatus_ok_inactive {caller : Address} {fid : String}
    {delayed : Bool} {now : Nat} {s : ContractState}
    {r : ContractState × List (Address × Nat)} {u : Address}
    (h : updateFlightStatus caller fid delayed now s = .ok r)
    (hin : (s.subscriptions u).isActive = false) :
    (r.1.subscriptions u).isActive = false := by
  obtain ⟨s2, log⟩ := r
  simp only [updateFlightStatus] at h
  by_cases hc : caller ≠ s.oracle
  · rw [if_pos hc] at h; cases h
  · rw [if_neg hc] at h
    cases delayed with
    | false =>
      simp only [Bool.false_eq_true, if_false, Except.ok.injEq, Prod.mk.injEq] at h
      rw [← h.1]
      exact hin
    | true =>
      simp only [if_true] at h
      cases hscan : scanUsers now fid s.allUsersWithFlights s.subscriptions
          ⟨s.poolBalance, []⟩ with
      | error e => rw [hscan] at h; cases h
      | ok w =>
        obtain ⟨subs', acc⟩ := w
        rw [hscan] at h
        simp only [Except.ok.injEq, Prod.mk.injEq] at h
        rw [← h.1]
        exact scanUsers_inactive_stays hin hscan

theorem updateFlightStatus_ok_clears {caller : Address} {fid : String}
    {now : Nat} {s : ContractState} {r : ContractState × List (Address × Nat)}
    {u : Address} (h : updateFlightStatus caller fid true now s = .ok r)
    (hexp : (s.subscriptions u).startTime + SUBSCRIPTION_DURATION ≤ now)
    (hmem : u ∈ s.allUsersWithFlights) :
    (r.1.subscriptions u).isActive = false := by
  obtain ⟨s2, log⟩ := r
  simp only [updateFlightStatus] at h
  by_cases hc : caller ≠ s.oracle
  · rw [if_pos hc] at h; cases h
  · rw [if_neg hc] at h
    simp only [if_true] at h
    cases hscan : scanUsers now fid s.allUsersWithFlights s.subscriptions
        ⟨s.poolBalance, []⟩ with
    | error e => rw [hscan] at h; cases h
    | ok w =>
      obtain ⟨subs', acc⟩ := w
      rw [hscan] at h
      simp only [Except.ok.injEq, Prod.mk.injEq] at h
      rw [← h.1]
      exact scanUsers_expired_clears hexp hmem hscan

theorem execCall_keeps_inactive (now : Nat) (c : Call) (s : ContractState)
    {u : Address} (hin : (s.subscriptions u).isActive = false)
    (hns : ∀ value, c ≠ .subscribeC u value) :
    ((execCall now c s).1.subscriptions u).isActive = false := by
  cases c with
  | subscribeC caller value =>
    simp only [execCall]
    cases hsub : subscribe caller value now s with
    | error e => exact hin
    | ok s' =>
      have hcu : u ≠ caller := by
        intro hx; subst hx; exact (hns value) rfl
      rw [subscribe_ok_frame hsub u hcu]
      exact hin
  | registerFlightC caller fid fts =>
    simp only [execCall]
    cases hreg : registerFlight caller fid fts s with
    | error e => exact hin
    | ok s' =>
      rw [(registerFlight_ok_flags hreg u).1]
      exact hin
  | updateFlightStatusC caller fid delayed =>
    simp only [execCall]
    cases hupd : updateFlightStatus caller fid delayed now s with
    | error e => exact hin
    | ok r => exact updateFlightStatus_ok_inactive hupd hin
  | depositFundsC caller value =>
    simp only [execCall]
    cases hdep : depositFunds caller value s with
    | error e => exact hin
    | ok s' =>
      simp only [depositFunds] at hdep
      by_cases h1 : caller ≠ s.owner
      · rw [if_pos h1] at hdep; cases hdep
      · rw [if_neg h1] at hdep
        by_cases h2 : value = 0
        · rw [if_pos h2] at hdep; cases hdep
        · rw [if_neg h2] at hdep
          simp only [Except.ok.injEq] at hdep
          rw [← hdep]
          exact hin
  | setOracleC caller newOracle =>
    simp only [execCall]
    cases hset : setOracle caller newOracle s with
    | error e => exact hin
    | ok s' =>
      simp only [setOracle] at hset
      by_cases h1 : caller = s.owner
      · rw [if_pos h1] at hset
        simp only [Except.ok.injEq] at hset
        rw [← hset]
        exact hin
      · rw [if_neg h1] at hset; cases hset

theorem execTrace_keeps_inactive {u : Address} (tr : List (Nat × Call)) :
    ∀ (s : ContractState), (s.subscriptions u).isActive = false →
    (∀ e ∈ tr, ∀ value, e.2 ≠ Call.subscribeC u value) →
    ((execTrace tr s).1.subscriptions u).isActive = false := by
  induction tr with
  | nil => intro s hin _; exact hin
  | cons e tr ih =>
    intro s hin hns
    simp only [execTrace]
    exact ih _
      (execCall_keeps_inactive e.1 e.2 s hin
        (fun value => hns e (List.mem_cons_self _ _) value))
      (fun e' he' => hns e' (List.mem_cons_of_mem _ he'))

/-- C6: the observable subscription status is true only inside the time
window; a delayed-status report that touches an expired subscriber durably
clears the stored flag; and once the stored flag is false it stays false
under any sequence of calls that contains no successful re-subscription by
that subscriber. -/
theorem active_flag_lifecycle (s : ContractState) (u : Address) (now : Nat) :
    (isSubscribed u now s = true →
      now < (s.subscriptions u).startTime + SUBSCRIPTION_DURATION) ∧
    (∀ fid : String,
      (s.subscriptions u).startTime + SUBSCRIPTION_DURATION ≤ now →
      u ∈ s.allUsersWithFlights →
      isOk (updateFlightStatus s.oracle fid true now s) = true →
      ((execCall now (.updateFlightStatusC s.oracle fid true) s).1.subscriptions u).isActive
        = false) ∧
    (∀ tr : List (Nat × Call), (s.subscriptions u).isActive = false →
      (∀ e ∈ tr, ∀ value, e.2 ≠ Call.subscribeC u value) →
      ((execTrace tr s).1.subscriptions u).isActive = false) := by
  refine ⟨?_, ?_, ?_⟩
  · intro hs
    simp only [isSubscribed, Bool.and_eq_true, decide_eq_true_eq] at hs
    exact hs.2
  · intro fid hexp hmem hok
    simp only [execCall]
    cases hres : updateFlightStatus s.oracle fid true now s with
    | error e => rw [hres] at hok; cases hok
    | ok r => exact updateFlightStatus_ok_clears hres hexp hmem
  · intro tr hin hns
    exact execTrace_keeps_inactive tr s hin hns

/-- C10: a reachable state (deploy, set oracle, subscribe at time 0) in
which, at the moment the window expires, `isSubscribed` already answers
false yet a re-subscription attempt still reverts with `alreadySubscribed`
because `subscribe` tests only the stored flag; only after an oracle
delayed-report touches the subscriber is the flag cleared and
re-subscription accepted. -/
theorem expired_but_cannot_resubscribe :
    isSubscribed 2 SUBSCRIPTION_DURATION resubState = false ∧
    isErr (subscribe 2 PREMIUM SUBSCRIPTION_DURATION resubState)
      .alreadySubscribed = true ∧
    (resubStateCleared.subscriptions 2).isActive = false ∧
    isOk (subscribe 2 PREMIUM SUBSCRIPTION_DURATION resubStateCleared) = true := by
  exact ⟨by decide, by decide, by decide, by decide⟩

theorem paid_out_at_most_once_witness :
    payoutsTo 2 (execUpdates
      [(8200, 9, "FL123", true), (9000, 9, "FL123", true)] demoState).2 =
      flips (demoState.subscriptions 2).policies
        (((execUpdates [(8200, 9, "FL123", true), (9000, 9, "FL123", true)]
          demoState).1.subscriptions 2).policies) ∧
    payoutsTo 2 (execUpdates
      [(8200, 9, "FL123", true), (9000, 9, "FL123", true)] demoState).2 = 1 :=
  ⟨(paid_out_at_most_once demoState
      [(8200, 9, "FL123", true), (9000, 9, "FL123", true)] 2).2.2, by decide⟩

theorem insufficient_pool_aborts_update_witness :
    (brokeState.poolBalance < PAYOUT * duePayoutCount 8200 "FL123" brokeState ∧
      updateFlightStatus brokeState.oracle "FL123" true 8200 brokeState =
        .error .insufficientPool) ∧
    (twoDueState.poolBalance < PAYOUT * duePayoutCount 8200 "FL123" twoDueState ∧
      updateFlightStatus twoDueState.oracle "FL123" true 8200 twoDueState =
        .error .insufficientPool ∧
      execCall 8200 (.updateFlightStatusC twoDueState.oracle "FL123" true)
        twoDueState = (twoDueState, [])) ∧
    (PAYOUT * duePayoutCount 8200 "FL123" demoState ≤ demoState.poolBalance ∧
      isOk (updateFlightStatus demoState.oracle "FL123" true 8200 demoState) = true) :=
  ⟨⟨by decide,
      ((insufficient_pool_aborts_update brokeState "FL123" 8200).1 (by decide)).1⟩,
    ⟨by decide,
      ((insufficient_pool_aborts_update twoDueState "FL123" 8200).1 (by decide)).1,
      ((insufficient_pool_aborts_update twoDueState "FL123" 8200).1 (by decide)).2⟩,
    ⟨by decide,
      (insufficient_pool_aborts_update demoState "FL123" 8200).2 (by decide)⟩⟩

theorem lapsed_subscriber_never_paid_witness :
    ¬((expiredState.subscriptions 2).isActive = true ∧
      2600000 < (expiredState.subscriptions 2).startTime + SUBSCRIPTION_DURATION) ∧
    payoutsTo 2 (execCall 2600000
      (.updateFlightStatusC 9 "FL123" true) expiredState).2 = 0 :=
  ⟨by decide,
    (lapsed_subscriber_never_paid expiredState 9 2 "FL123" true 2600000 (by decide)).1⟩

theorem duplicate_flight_rejected_witness :
    (2 : Address) ≠ demoState.oracle ∧
    hasFlight (demoState.subscriptions 2).policies "FL123" = true ∧
    registerFlight 2 "FL123" 4242 demoState = .error .duplicateFlight :=
  ⟨by decide, by decide,
    (duplicate_flight_rejected demoState 2 "FL123" 4242 0 (by decide)).1 (by decide)⟩

theorem subscribe_preconditions_witness :
    (5 : Nat) ≠ PREMIUM ∧
    (subscribe 2 5 100 demoState = .error .wrongPremium ∧
      execCall 100 (.subscribeC 2 5) demoState = (demoState, [])) :=
  ⟨by decide, (subscribe_preconditions demoState 2 5 100).1 (by decide)⟩

theorem active_flag_lifecycle_witness :
    (expiredState.subscriptions 2).startTime + SUBSCRIPTION_DURATION ≤ 2600000 ∧
    ((execCall 2600000 (.updateFlightStatusC expiredState.oracle "FL123" true)
      expiredState).1.subscriptions 2).isActive = false :=
  ⟨by decide,
    (active_flag_lifecycle expiredState 2 2600000).2.1 "FL123"
      (by decide) (by decide) (by decide)⟩

theorem depositFunds_requires_positive_witness :
    depositFunds demoState.owner 0 demoState = .error .invalidAmount ∧
    (0 < 7 ∧ depositFunds demoState.owner 7 demoState =
      .ok { demoState with poolBalance := demoState.poolBalance + 7 }) :=
  ⟨(depositFunds_requires_positive demoState 7).1,
    by decide, (depositFunds_requires_positive demoState 7).2 (by decide)⟩

theorem subscribe_success_retains_policies_witness :
    (lapsedState.subscriptions 2).isActive = false ∧
    ((execCall 4000 (.subscribeC 2 PREMIUM) lapsedState).1.subscriptions 2).policies =
      (lapsedState.subscriptions 2).policies :=
  ⟨by decide,
    (subscribe_success_retains_policies lapsedState 2 4000 (by decide)).2.2.2.1⟩

end FlightInsurance
